import Mathlib

/-!
Verification of the df-diskcache cache engine (`dfdiskcache/_core.py`).

The development shallowly embeds the cache lifecycle engine:

* the hasher `DataFrameDiskCache.__calc_hash` (SHA-256 of the
  whitespace-stripped key; the cryptographic hash itself is an external
  collaborator and is modelled as an arbitrary function `H`, so every
  theorem about the hasher holds for the real SHA-256 instance as well);
* the metadata table `DiskCacheInfo` (a SQLite table with rows
  `key, path, created_at, updated_at, ttl`), modelled as a list of rows —
  `select where` is `List.filter`, `update where` is `List.map` over a
  conditional row update, `delete where` keeps the non-matching rows,
  `insert` appends;
* the payload files on disk, modelled as a partial map from path strings
  to file contents; a pickle file either holds a `DataFrame` payload (an
  abstract type `α`) or some other object;
* the five public operations `get`, `set`, `touch`, `prune`, `delete`,
  each taking the wall-clock timestamp(s) the Python code obtains from
  `get_utcnow_timestamp()` as explicit `Int` parameters.
-/

namespace DfDiskCache

/-- Characters removed by Python `str.strip()` (the ASCII whitespace set;
the Unicode additions are irrelevant to the properties proved here). -/
def pyIsSpace (c : Char) : Bool :=
  c = ' ' || c = '\t' || c = '\n' || c = '\r' || c = '\x0b' || c = '\x0c'

/-- `str.strip()` on the character list: drop whitespace from the front,
then from the back (via reverse). -/
def pyStripL (p : Char → Bool) (l : List Char) : List Char :=
  ((l.dropWhile p).reverse.dropWhile p).reverse

/-- Python `key.strip()`. -/
def pyStrip (s : String) : String :=
  String.mk (pyStripL pyIsSpace s.data)

/-- `DataFrameDiskCache.__calc_hash`: `hashlib.sha256(key.strip().encode()).hexdigest()`.
The SHA-256 hex digest is an external pure function, abstracted as `H`. -/
def calcHash (H : String → String) (key : String) : String :=
  H (pyStrip key)

lemma dropWhile_dropWhile (p : Char → Bool) (l : List Char) :
    (l.dropWhile p).dropWhile p = l.dropWhile p := by
  induction l with
  | nil => rfl
  | cons a l ih =>
    by_cases h : p a
    · simp [List.dropWhile_cons, h, ih]
    · simp [List.dropWhile_cons, h]

lemma dropWhile_head_false (p : Char → Bool) (l : List Char) :
    ∀ h t, l.dropWhile p = h :: t → p h = false := by
  induction l with
  | nil => intro h t hc; simp [List.dropWhile] at hc
  | cons a l ih =>
    intro h t hc
    by_cases ha : p a
    · rw [List.dropWhile_cons, if_pos ha] at hc
      exact ih h t hc
    · rw [List.dropWhile_cons, if_neg ha] at hc
      cases hc
      simpa using ha

lemma getLast?_dropWhile (p : Char → Bool) (l : List Char)
    (h : l.dropWhile p ≠ []) : (l.dropWhile p).getLast? = l.getLast? := by
  induction l with
  | nil => simp [List.dropWhile] at h
  | cons a l ih =>
    by_cases hp : p a
    · rw [List.dropWhile_cons, if_pos hp] at h ⊢
      cases hl : l with
      | nil => rw [hl] at h; simp [List.dropWhile] at h
      | cons b l2 =>
        rw [← hl]
        rw [ih h, hl, List.getLast?_cons_cons]
    · rw [List.dropWhile_cons, if_neg hp]

lemma dropWhile_eq_self_of_head (p : Char → Bool) (m : List Char)
    (h : ∀ a t, m = a :: t → p a = false) : m.dropWhile p = m := by
  cases m with
  | nil => rfl
  | cons a t => rw [List.dropWhile_cons, if_neg (by simp [h a t rfl])]

lemma pyStripL_idem (p : Char → Bool) (l : List Char) :
    pyStripL p (pyStripL p l) = pyStripL p l := by
  unfold pyStripL
  set a := l.dropWhile p with ha
  set b := a.reverse.dropWhile p with hb
  have step1 : b.reverse.dropWhile p = b.reverse := by
    apply dropWhile_eq_self_of_head
    intro h t hc
    have hbne : b ≠ [] := by
      intro hnil
      rw [hnil] at hc
      simp at hc
    have h1 : b.reverse.head? = some h := by rw [hc]; rfl
    rw [List.head?_reverse] at h1
    have h2 : b.getLast? = a.reverse.getLast? := by
      rw [hb]; exact getLast?_dropWhile p a.reverse (by rw [← hb]; exact hbne)
    have h3 : a.reverse.getLast? = a.head? := by
      rw [← List.head?_reverse, List.reverse_reverse]
    have h4 : a.head? = some h := by rw [← h3, ← h2, h1]
    cases hca : a with
    | nil => rw [hca] at h4; simp at h4
    | cons x xs =>
      rw [hca] at h4
      simp at h4
      subst h4
      exact dropWhile_head_false p l x xs (by rw [← ha, hca])
  rw [step1, List.reverse_reverse, hb, dropWhile_dropWhile]

lemma pyStrip_idem (s : String) : pyStrip (pyStrip s) = pyStrip s := by
  unfold pyStrip
  exact congrArg String.mk (pyStripL_idem pyIsSpace s.data)

/-- Claim C8: the digest function is pure and deterministic (it is a pure
function of the key in this embedding, composed with the pure external
SHA-256 hex digest `H`), and it strips surrounding whitespace before
hashing: `digest k = digest (strip k)` for every key, and in particular
`digest " k " = digest "k"`. -/
theorem c8_digest_strips_whitespace :
    (∀ (H : String → String) (k : String), calcHash H k = calcHash H (pyStrip k)) ∧
    (∀ H : String → String, calcHash H " k " = calcHash H "k") := by
  constructor
  · intro H k
    unfold calcHash
    rw [pyStrip_idem]
  · intro H
    unfold calcHash
    have h : pyStrip " k " = pyStrip "k" := by decide
    rw [h]

/-- One row of the `DiskCacheInfo` SQLite table:
`key TEXT PRIMARY KEY, path TEXT, created_at INTEGER, updated_at INTEGER,
ttl INTEGER`.  Timestamps are UTC epoch seconds (Python `int`), hence `Int`. -/
structure DiskCacheInfo where
  key : String
  path : String
  created_at : Int
  updated_at : Int
  ttl : Int
deriving DecidableEq, Repr

/-- Contents of a pickle file on disk: either a pickled `DataFrame`
payload (abstract payload type `α`) or some other pickled object
(the `isinstance(obj, pd.DataFrame)` check in `get` fails on it). -/
inductive FileObj (α : Type) where
  | df (value : α)
  | nonDf
deriving DecidableEq, Repr

/-- The mutable state the cache engine acts on: the metadata table and the
file system (a partial map from path strings to pickle file contents). -/
structure CacheState (α : Type) where
  table : List DiskCacheInfo
  fs : String → Option (FileObj α)

/-- `DataFrameDiskCache.DEFAULT_TTL = 3600`. -/
def DEFAULT_TTL : Int := 3600

/-- The canonical payload path `cache_dir_path / f"{hash}.pkl"`. -/
def cacheFilePath (dir hash : String) : String :=
  dir ++ "/" ++ hash ++ ".pkl"

/-- `DiskCacheInfo.select(where=Where(key, hash))`. -/
def selectByKey (table : List DiskCacheInfo) (hash : String) : List DiskCacheInfo :=
  table.filter fun r => decide (r.key = hash)

/-- The `select` in `get`: `Where(key, hash)` and `(updated_at + ttl) >= now`. -/
def selectValid (table : List DiskCacheInfo) (hash : String) (now : Int) :
    List DiskCacheInfo :=
  table.filter fun r => decide (r.key = hash ∧ now ≤ r.updated_at + r.ttl)

/-- The `select` in `prune`: `(updated_at + ttl) < now`. -/
def selectExpired (table : List DiskCacheInfo) (now : Int) : List DiskCacheInfo :=
  table.filter fun r => decide (r.updated_at + r.ttl < now)

/-- The body of the `for record in results:` loop of `get`: the loop
returns on its first iteration in every branch, so only the head record
matters.  Missing file: return `None` (the TODO in the source notes the
stale record is *not* deleted).  Non-`DataFrame` pickle: log a warning and
return `None`. -/
def lookupResult {α : Type} (l : List DiskCacheInfo)
    (fs : String → Option (FileObj α)) : Option α :=
  match l with
  | [] => none
  | r :: _ =>
    match fs r.path with
    | none => none
    | some (FileObj.df d) => some d
    | some FileObj.nonDf => none

/-- `DataFrameDiskCache.get(key)` at wall-clock time `now`.  The state is
returned unchanged: `get` only runs a `select` and file reads. -/
def get {α : Type} (s : CacheState α) (H : String → String) (key : String)
    (now : Int) : Option α × CacheState α :=
  (lookupResult (selectValid s.table (calcHash H key) now) s.fs, s)

/-- The per-row effect of the `UPDATE` in `set`: rows matching the hash get
`path` and `updated_at` overwritten; nothing else changes. -/
def setUpdateRow (hash fpath : String) (now : Int) (r : DiskCacheInfo) :
    DiskCacheInfo :=
  if r.key = hash then { r with path := fpath, updated_at := now } else r

/-- `DataFrameDiskCache.set(key, value, ttl)` at wall-clock time `now`.
The pickle is written to a temp file outside the cache dir and
`os.rename`d onto the canonical path, so the net file-system effect is an
atomic overwrite of the canonical path.  If no row exists for the hash, a
row is inserted with `created_at = updated_at = now` and the given ttl
(defaulting to `DEFAULT_TTL`); otherwise only `path` and `updated_at` are
updated.  Returns the canonical path. -/
def set {α : Type} (s : CacheState α) (H : String → String) (dir key : String)
    (value : α) (ttl : Option Int) (now : Int) : String × CacheState α :=
  let hash := calcHash H key
  let fpath := cacheFilePath dir hash
  let table :=
    if (selectByKey s.table hash).length = 0 then
      s.table ++ [{ key := hash, path := fpath, created_at := now,
                    updated_at := now, ttl := ttl.getD DEFAULT_TTL }]
    else
      s.table.map (setUpdateRow hash fpath now)
  (fpath, { table := table,
            fs := fun p => if p = fpath then some (FileObj.df value) else s.fs p })

/-- The per-row effect of the `UPDATE` in `touch` (`where key = record.key`). -/
def touchRow (k : String) (now : Int) (r : DiskCacheInfo) : DiskCacheInfo :=
  if r.key = k then { r with updated_at := now } else r

/-- `DataFrameDiskCache.touch(key)` at wall-clock time `now`: for the first
row matching the hash, set `updated_at = now` (validity is not checked)
and return its stored path; if no row matches, return `None`. -/
def touch {α : Type} (s : CacheState α) (H : String → String) (key : String)
    (now : Int) : Option String × CacheState α :=
  match selectByKey s.table (calcHash H key) with
  | [] => (none, s)
  | r :: _ =>
    (some r.path, { table := s.table.map (touchRow r.key now), fs := s.fs })

/-- `DataFrameDiskCache.prune()` at wall-clock time `now` (the timestamp is
interpolated once into the `where` string and reused by the final
`DELETE`).  Every expired row is counted whether or not its file exists;
existing files of expired rows are removed; all expired rows are deleted. -/
def prune {α : Type} (s : CacheState α) (now : Int) : Nat × CacheState α :=
  let expired := selectExpired s.table now
  (expired.length,
   { table := s.table.filter fun r => decide (¬ r.updated_at + r.ttl < now),
     fs := fun p => if expired.any (fun r => decide (r.path = p)) then none
                    else s.fs p })

/-- One iteration of the `for record in select(...)` loop of `delete`:
if the record's file exists, remember its path in `deleted_path` and
remove the file; otherwise leave the accumulator alone. -/
def deleteStep {α : Type} (acc : Option String × (String → Option (FileObj α)))
    (r : DiskCacheInfo) : Option String × (String → Option (FileObj α)) :=
  if (acc.2 r.path).isSome then
    (some r.path, fun p => if p = r.path then none else acc.2 p)
  else acc

/-- `DataFrameDiskCache.delete(key)`: remove the payload files of matching
rows that have one, then delete every matching metadata row; return
`deleted_path`, which was only assigned when a file was actually removed. -/
def delete {α : Type} (s : CacheState α) (H : String → String) (key : String) :
    Option String × CacheState α :=
  let hash := calcHash H key
  let res := (selectByKey s.table hash).foldl deleteStep (none, s.fs)
  (res.1, { table := s.table.filter fun r => decide (¬ r.key = hash),
            fs := res.2 })

lemma selectByKey_head_key {l : List DiskCacheInfo} {hash : String}
    {r : DiskCacheInfo} {rest : List DiskCacheInfo}
    (h : selectByKey l hash = r :: rest) : r.key = hash := by
  have hm : r ∈ selectByKey l hash := by
    rw [h]; exact List.mem_cons_self r rest
  have := List.of_mem_filter hm
  simpa using this

lemma selectValid_eq_nil {l : List DiskCacheInfo} {hash : String} (now : Int)
    (h : selectByKey l hash = []) : selectValid l hash now = [] := by
  rw [selectByKey, List.filter_eq_nil_iff] at h
  rw [selectValid, List.filter_eq_nil_iff]
  intro a ha
  simp only [decide_eq_true_eq] at h ⊢
  exact fun hc => h a ha hc.1

lemma selectValid_append (l1 l2 : List DiskCacheInfo) (hash : String) (now : Int) :
    selectValid (l1 ++ l2) hash now = selectValid l1 hash now ++ selectValid l2 hash now := by
  simp [selectValid, List.filter_append]

lemma selectValid_map_head {f : DiskCacheInfo → DiskCacheInfo} {hash : String}
    (hkey : ∀ x, (f x).key = x.key) (hskip : ∀ x, x.key ≠ hash → f x = x)
    {l : List DiskCacheInfo} {r : DiskCacheInfo} {rest : List DiskCacheInfo}
    {now : Int}
    (hsel : selectByKey l hash = r :: rest)
    (hvalid : now ≤ (f r).updated_at + (f r).ttl) :
    ∃ rest2, selectValid (l.map f) hash now = f r :: rest2 := by
  induction l generalizing rest with
  | nil => simp [selectByKey] at hsel
  | cons a l ih =>
    by_cases ha : a.key = hash
    · have h1 : selectByKey (a :: l) hash = a :: selectByKey l hash := by
        simp [selectByKey, List.filter_cons, ha]
      rw [h1] at hsel
      injection hsel with hr hrest
      subst hr
      have hfa : (f a).key = hash := by rw [hkey]; exact ha
      refine ⟨selectValid (l.map f) hash now, ?_⟩
      simp [selectValid, List.filter_cons, hfa, hvalid]
    · have h1 : selectByKey (a :: l) hash = selectByKey l hash := by
        simp [selectByKey, List.filter_cons, ha]
      rw [h1] at hsel
      have hfa : f a = a := hskip a ha
      have h2 : selectValid ((a :: l).map f) hash now = selectValid (l.map f) hash now := by
        simp [selectValid, List.map_cons, hfa, List.filter_cons, ha]
      rw [h2]
      exact ih hsel

lemma setUpdateRow_key (hash fpath : String) (now : Int) (x : DiskCacheInfo) :
    (setUpdateRow hash fpath now x).key = x.key := by
  by_cases h : x.key = hash <;> simp [setUpdateRow, h]

lemma setUpdateRow_skip (hash fpath : String) (now : Int) (x : DiskCacheInfo)
    (h : x.key ≠ hash) : setUpdateRow hash fpath now x = x := by
  simp [setUpdateRow, h]

lemma touchRow_key (k : String) (now : Int) (x : DiskCacheInfo) :
    (touchRow k now x).key = x.key := by
  by_cases h : x.key = k <;> simp [touchRow, h]

lemma touchRow_skip (k : String) (now : Int) (x : DiskCacheInfo)
    (h : x.key ≠ k) : touchRow k now x = x := by
  simp [touchRow, h]

lemma delete_removes_key {α : Type} (s : CacheState α) (H : String → String)
    (key : String) : selectByKey (delete s H key).2.table (calcHash H key) = [] := by
  rw [selectByKey, List.filter_eq_nil_iff]
  intro a ha
  simp only [delete] at ha
  have := List.of_mem_filter ha
  simpa using this

lemma delete_fst_of_no_record {α : Type} (s : CacheState α) (H : String → String)
    (key : String) (h : selectByKey s.table (calcHash H key) = []) :
    (delete s H key).1 = none := by
  simp [delete, h]

/-- Claim C10: after `delete(k)` returns, no metadata record for
`digest(k)` remains in the table — the `DELETE where key = hash` runs
unconditionally, whether or not the payload file existed. -/
theorem c10_delete_removes_record_unconditionally {α : Type} (s : CacheState α)
    (H : String → String) (key : String) :
    selectByKey (delete s H key).2.table (calcHash H key) = [] :=
  delete_removes_key s H key

/-- Claim C2: `get(k)` returns a payload only when a record for
`digest(k)` exists and satisfies `updated_at + ttl >= now` (and its file
holds the payload); and whenever every record for `digest(k)` is expired
(`updated_at + ttl < now`), `get(k)` returns `None`. -/
theorem c2_get_only_valid_records {α : Type} (s : CacheState α)
    (H : String → String) (key : String) (now : Int) :
    (∀ d : α, (get s H key now).1 = some d →
       ∃ r, r ∈ s.table ∧ r.key = calcHash H key ∧
         now ≤ r.updated_at + r.ttl ∧ s.fs r.path = some (FileObj.df d)) ∧
    ((∀ r, r ∈ s.table → r.key = calcHash H key → r.updated_at + r.ttl < now) →
       (get s H key now).1 = none) := by
  constructor
  · intro d hd
    rw [get] at hd
    simp only at hd
    cases hsel : selectValid s.table (calcHash H key) now with
    | nil => rw [hsel] at hd; simp [lookupResult] at hd
    | cons r rest =>
      rw [hsel] at hd
      have hm : r ∈ selectValid s.table (calcHash H key) now := by
        rw [hsel]; exact List.mem_cons_self r rest
      have hmem : r ∈ s.table := List.mem_of_mem_filter hm
      have hpred := List.of_mem_filter hm
      simp only [decide_eq_true_eq] at hpred
      cases hf : s.fs r.path with
      | none => rw [lookupResult, hf] at hd; simp at hd
      | some obj =>
        cases obj with
        | df v =>
          rw [lookupResult, hf] at hd
          simp only [Option.some.injEq] at hd
          exact ⟨r, hmem, hpred.1, hpred.2, by rw [hf, hd]⟩
        | nonDf => rw [lookupResult, hf] at hd; simp at hd
  · intro hexp
    rw [get]
    simp only
    have hsel : selectValid s.table (calcHash H key) now = [] := by
      rw [selectValid, List.filter_eq_nil_iff]
      intro a ha
      simp only [decide_eq_true_eq]
      intro hc
      have := hexp a ha hc.1
      omega
    rw [hsel, lookupResult]

/-- Claim C4: when the head valid record's payload file is absent, `get`
returns `None` and leaves the state (in particular the metadata table)
untouched; when the file holds a non-`DataFrame` object, `get` likewise
returns `None` with the state untouched. -/
theorem c4_get_miss_on_missing_or_corrupt_file {α : Type} (s : CacheState α)
    (H : String → String) (key : String) (now : Int) (r : DiskCacheInfo)
    (rest : List DiskCacheInfo)
    (hsel : selectValid s.table (calcHash H key) now = r :: rest) :
    (s.fs r.path = none → get s H key now = (none, s)) ∧
    (s.fs r.path = some FileObj.nonDf → get s H key now = (none, s)) := by
  constructor
  · intro hf
    rw [get, hsel, lookupResult, hf]
  · intro hf
    rw [get, hsel, lookupResult, hf]

def wRec : DiskCacheInfo :=
  { key := "k", path := "/c/k.pkl", created_at := 0, updated_at := 0, ttl := 100 }

def wStateNoFile : CacheState Nat :=
  { table := [wRec], fs := fun _ => none }

def wRecShortTtl : DiskCacheInfo :=
  { key := "k", path := "/c/k.pkl", created_at := 0, updated_at := 0, ttl := 10 }

def wStateExpired : CacheState Nat :=
  { table := [wRecShortTtl], fs := fun _ => none }

/-- Witness for C2: in a state whose only record for the digest of `"k"`
is expired at time 100, `get` returns `None`. -/
theorem c2_get_only_valid_records_witness :
    (∀ r, r ∈ wStateExpired.table → r.key = calcHash id "k" →
       r.updated_at + r.ttl < 100) ∧
    (get wStateExpired id "k" 100).1 = none :=
  ⟨by decide, (c2_get_only_valid_records wStateExpired id "k" 100).2 (by decide)⟩

/-- Witness for C4: a record valid at time 5 whose payload file is absent
makes `get` return `None` and leave the state unchanged. -/
theorem c4_get_miss_on_missing_or_corrupt_file_witness :
    selectValid wStateNoFile.table (calcHash id "k") 5 = [wRec] ∧
    get wStateNoFile id "k" 5 = (none, wStateNoFile) :=
  ⟨by decide,
   (c4_get_miss_on_missing_or_corrupt_file wStateNoFile id "k" 5 wRec []
     (by decide)).1 rfl⟩

/-- The ttl that governs the entry after a `set`: the ttl argument
(defaulted to `DEFAULT_TTL`) on the insert path, the previously stored
ttl on the update path (where the argument is ignored). -/
def governingTtl (l : List DiskCacheInfo) (ttlArg : Option Int) : Int :=
  match l with
  | [] => ttlArg.getD DEFAULT_TTL
  | r :: _ => r.ttl

/-- Claim C1 (round trip): `set(k, p, ttl)` at time `tset` followed by
`get(k)` at any time `tget` before the entry's governing ttl has elapsed
(`tset ≤ tget < tset + ttl`, ttl positive) returns exactly `p`. -/
theorem c1_set_get_round_trip {α : Type} (s : CacheState α)
    (H : String → String) (dir key : String) (value : α) (ttlArg : Option Int)
    (tset tget : Int)
    (hpos : 0 < governingTtl (selectByKey s.table (calcHash H key)) ttlArg)
    (hmono : tset ≤ tget)
    (hwin : tget < tset + governingTtl (selectByKey s.table (calcHash H key)) ttlArg) :
    (get (set s H dir key value ttlArg tset).2 H key tget).1 = some value := by
  cases hsel : selectByKey s.table (calcHash H key) with
  | nil =>
    rw [hsel] at hwin
    simp only [governingTtl] at hwin
    have hlen : (selectByKey s.table (calcHash H key)).length = 0 := by
      rw [hsel]; rfl
    have h2 : tget ≤ tset + ttlArg.getD DEFAULT_TTL := by omega
    simp only [get, set]
    rw [if_pos hlen, selectValid_append, selectValid_eq_nil tget hsel]
    simp [selectValid, List.filter_cons, h2, lookupResult]
  | cons r rest =>
    rw [hsel] at hwin
    simp only [governingTtl] at hwin
    have hlen : ¬ (selectByKey s.table (calcHash H key)).length = 0 := by
      rw [hsel]; simp
    have hrkey : r.key = calcHash H key := selectByKey_head_key hsel
    have hvalid : tget ≤
        (setUpdateRow (calcHash H key) (cacheFilePath dir (calcHash H key)) tset r).updated_at +
        (setUpdateRow (calcHash H key) (cacheFilePath dir (calcHash H key)) tset r).ttl := by
      simp only [setUpdateRow, if_pos hrkey]
      omega
    obtain ⟨rest2, hsv⟩ := selectValid_map_head
      (setUpdateRow_key (calcHash H key) (cacheFilePath dir (calcHash H key)) tset)
      (setUpdateRow_skip (calcHash H key) (cacheFilePath dir (calcHash H key)) tset)
      hsel hvalid
    simp only [get, set]
    rw [if_neg hlen, hsv]
    simp [lookupResult, setUpdateRow, hrkey]

def sEmpty : CacheState Nat := { table := [], fs := fun _ => none }

/-- Witness for C1: on an empty cache, `set "k" 5` with ttl 10 at time 0
followed by `get "k"` at time 1 returns `some 5`. -/
theorem c1_set_get_round_trip_witness :
    0 < governingTtl (selectByKey sEmpty.table (calcHash id "k")) (some 10) ∧
    (0:Int) ≤ 1 ∧
    (1:Int) < 0 + governingTtl (selectByKey sEmpty.table (calcHash id "k")) (some 10) ∧
    (get (set sEmpty id "/c" "k" 5 (some 10) 0).2 id "k" 1).1 = some 5 :=
  ⟨by decide, by decide, by decide,
   c1_set_get_round_trip sEmpty id "/c" "k" 5 (some 10) 0 1
     (by decide) (by decide) (by decide)⟩

lemma touch_eq_of_no_record {α : Type} (s : CacheState α) (H : String → String)
    (key : String) (now : Int)
    (h : selectByKey s.table (calcHash H key) = []) :
    touch s H key now = (none, s) := by
  unfold touch
  rw [h]

lemma touch_eq_of_record {α : Type} (s : CacheState α) (H : String → String)
    (key : String) (now : Int) (r : DiskCacheInfo) (rest : List DiskCacheInfo)
    (h : selectByKey s.table (calcHash H key) = r :: rest) :
    touch s H key now =
      (some r.path, { table := s.table.map (touchRow r.key now), fs := s.fs }) := by
  unfold touch
  rw [h]

/-- Claim C6: `touch(k)` returns a non-absent identifier iff a metadata
record exists for `digest(k)` (valid or expired); it then sets the
matching records' `updated_at` to `now`, so a subsequent `get(k)` within
the refreshed window (`tget ≤ now + ttl`) returns the stored payload
again, provided the payload file still holds it. -/
theorem c6_touch_refreshes_and_resurrects {α : Type} (s : CacheState α)
    (H : String → String) (key : String) (now : Int) :
    ((touch s H key now).1 ≠ none ↔ selectByKey s.table (calcHash H key) ≠ []) ∧
    (∀ r rest, selectByKey s.table (calcHash H key) = r :: rest →
       (∀ x, x ∈ (touch s H key now).2.table → x.key = calcHash H key →
          x.updated_at = now) ∧
       (∀ (d : α) (tget : Int), s.fs r.path = some (FileObj.df d) →
          tget ≤ now + r.ttl →
          (get (touch s H key now).2 H key tget).1 = some d)) := by
  constructor
  · cases hsel : selectByKey s.table (calcHash H key) with
    | nil => rw [touch_eq_of_no_record s H key now hsel]; simp
    | cons r rest => rw [touch_eq_of_record s H key now r rest hsel]; simp
  · intro r rest hsel
    have hrkey : r.key = calcHash H key := selectByKey_head_key hsel
    rw [touch_eq_of_record s H key now r rest hsel]
    constructor
    · intro x hx hxkey
      simp only [List.mem_map] at hx
      obtain ⟨y, hy, hxy⟩ := hx
      by_cases hyk : y.key = r.key
      · rw [← hxy]; simp [touchRow, hyk]
      · rw [← hxy] at hxkey
        rw [touchRow_key] at hxkey
        exact absurd (hxkey.trans hrkey.symm) hyk
    · intro d tget hf hvalid
      have hvalid2 : tget ≤ (touchRow r.key now r).updated_at + (touchRow r.key now r).ttl := by
        simp [touchRow]
        omega
      have hskip2 : ∀ x, x.key ≠ calcHash H key → touchRow r.key now x = x :=
        fun x hx => touchRow_skip r.key now x fun hc => hx (hc.trans hrkey)
      obtain ⟨rest2, hsv⟩ := selectValid_map_head (touchRow_key r.key now) hskip2
        hsel hvalid2
      simp only [get]
      rw [hsv]
      simp [lookupResult, touchRow, hf]

def wRecTouch : DiskCacheInfo :=
  { key := "k", path := "/c/k.pkl", created_at := 0, updated_at := 0, ttl := 5 }

def wStateTouch : CacheState Nat :=
  { table := [wRecTouch],
    fs := fun p => if p = "/c/k.pkl" then some (FileObj.df 7) else none }

/-- Witness for C6: the record for `"k"` is expired at time 100
(`0 + 5 < 100`); `touch` at 100 then `get` at 103 (within the refreshed
window `103 ≤ 100 + 5`) returns the cached payload `7` again. -/
theorem c6_touch_refreshes_and_resurrects_witness :
    selectByKey wStateTouch.table (calcHash id "k") = [wRecTouch] ∧
    wRecTouch.updated_at + wRecTouch.ttl < 100 ∧
    (get (touch wStateTouch id "k" 100).2 id "k" 103).1 = some 7 := by
  have h := (c6_touch_refreshes_and_resurrects wStateTouch id "k" 100).2
    wRecTouch [] (by decide)
  exact ⟨by decide, by decide, h.2 7 103 rfl (by decide)⟩

lemma get_map_of_eq {l2 l : List DiskCacheInfo} {f : DiskCacheInfo → DiskCacheInfo}
    (h : l2 = l.map f) (i : Nat) (h1 : i < l.length) (h2 : i < l2.length) :
    l2.get ⟨i, h2⟩ = f (l.get ⟨i, h1⟩) := by
  subst h
  simp [List.getElem_map]

/-- Claim C7: on the update path of `set` (a record for `digest(k)`
already exists), the table keeps its length and, row by row, `key`,
`created_at` and `ttl` are untouched; rows matching the digest get
`path = canonical path` and `updated_at = now`, and all other rows are
left exactly as they were. -/
theorem c7_set_update_preserves_created_at {α : Type} (s : CacheState α)
    (H : String → String) (dir key : String) (value : α) (ttlArg : Option Int)
    (now : Int) (r : DiskCacheInfo) (rest : List DiskCacheInfo)
    (hsel : selectByKey s.table (calcHash H key) = r :: rest) :
    (set s H dir key value ttlArg now).2.table.length = s.table.length ∧
    ∀ (i : Nat) (h1 : i < s.table.length)
      (h2 : i < (set s H dir key value ttlArg now).2.table.length),
      ((set s H dir key value ttlArg now).2.table.get ⟨i, h2⟩).key =
        (s.table.get ⟨i, h1⟩).key ∧
      ((set s H dir key value ttlArg now).2.table.get ⟨i, h2⟩).created_at =
        (s.table.get ⟨i, h1⟩).created_at ∧
      ((set s H dir key value ttlArg now).2.table.get ⟨i, h2⟩).ttl =
        (s.table.get ⟨i, h1⟩).ttl ∧
      ((s.table.get ⟨i, h1⟩).key = calcHash H key →
         ((set s H dir key value ttlArg now).2.table.get ⟨i, h2⟩).path =
           cacheFilePath dir (calcHash H key) ∧
         ((set s H dir key value ttlArg now).2.table.get ⟨i, h2⟩).updated_at = now) ∧
      ((s.table.get ⟨i, h1⟩).key ≠ calcHash H key →
         (set s H dir key value ttlArg now).2.table.get ⟨i, h2⟩ =
           s.table.get ⟨i, h1⟩) := by
  have hlen : ¬ (selectByKey s.table (calcHash H key)).length = 0 := by
    rw [hsel]; simp
  have hst : (set s H dir key value ttlArg now).2.table =
      s.table.map (setUpdateRow (calcHash H key) (cacheFilePath dir (calcHash H key)) now) := by
    simp only [set]
    rw [if_neg hlen]
  constructor
  · rw [hst, List.length_map]
  · intro i h1 h2
    have hget : (set s H dir key value ttlArg now).2.table.get ⟨i, h2⟩ =
        setUpdateRow (calcHash H key) (cacheFilePath dir (calcHash H key)) now
          (s.table.get ⟨i, h1⟩) :=
      get_map_of_eq hst i h1 h2
    rw [hget]
    by_cases hk : (s.table.get ⟨i, h1⟩).key = calcHash H key
    · refine ⟨?_, ?_, ?_, ?_, ?_⟩
      · simp only [setUpdateRow]; rw [if_pos hk]
      · simp only [setUpdateRow]; rw [if_pos hk]
      · simp only [setUpdateRow]; rw [if_pos hk]
      · intro _; simp only [setUpdateRow]; rw [if_pos hk]; exact ⟨rfl, rfl⟩
      · intro hc; exact absurd hk hc
    · refine ⟨?_, ?_, ?_, ?_, ?_⟩
      · simp only [setUpdateRow]; rw [if_neg hk]
      · simp only [setUpdateRow]; rw [if_neg hk]
      · simp only [setUpdateRow]; rw [if_neg hk]
      · intro hc; exact absurd hc hk
      · intro _; simp only [setUpdateRow]; rw [if_neg hk]

/-- Claim C9: on the update path of `set`, the ttl argument has no effect
at all — the resulting state is identical for any two ttl arguments, and
the stored ttl column is exactly what it was before the call. -/
theorem c9_set_update_ignores_ttl_argument {α : Type} (s : CacheState α)
    (H : String → String) (dir key : String) (value : α) (t1 t2 : Option Int)
    (now : Int)
    (hne : selectByKey s.table (calcHash H key) ≠ []) :
    (set s H dir key value t1 now).2 = (set s H dir key value t2 now).2 ∧
    (set s H dir key value t1 now).2.table.map DiskCacheInfo.ttl =
      s.table.map DiskCacheInfo.ttl := by
  have hlen : ¬ (selectByKey s.table (calcHash H key)).length = 0 := by
    intro h
    exact hne (List.length_eq_zero.mp h)
  constructor
  · simp only [set]
    rw [if_neg hlen, if_neg hlen]
  · simp only [set]
    rw [if_neg hlen, List.map_map]
    apply List.map_congr_left
    intro a _
    by_cases hk : a.key = calcHash H key <;>
      simp [setUpdateRow, hk, Function.comp]

def wRecUpd : DiskCacheInfo :=
  { key := "k", path := "/c/k.pkl", created_at := 3, updated_at := 4, ttl := 42 }

def wStateUpd : CacheState Nat :=
  { table := [wRecUpd], fs := fun _ => none }

/-- Witness for C7: updating the existing entry for `"k"` keeps the table
length and the stored `created_at` and `ttl` of row 0. -/
theorem c7_set_update_preserves_created_at_witness :
    (set wStateUpd id "/c" "k" (9:Nat) (some 50) 10).2.table.length =
      wStateUpd.table.length ∧
    ((set wStateUpd id "/c" "k" (9:Nat) (some 50) 10).2.table.get
        ⟨0, by decide⟩).created_at = 3 ∧
    ((set wStateUpd id "/c" "k" (9:Nat) (some 50) 10).2.table.get
        ⟨0, by decide⟩).ttl = 42 := by
  have h := c7_set_update_preserves_created_at wStateUpd id "/c" "k" 9 (some 50) 10
    wRecUpd [] (by decide)
  have h0 := h.2 0 (by decide) (by decide)
  exact ⟨h.1, by rw [h0.2.1]; rfl, by rw [h0.2.2.1]; rfl⟩

/-- Witness for C9: with the entry for `"k"` already stored (ttl 42),
`set` with ttl 5 and `set` with ttl 9999 produce identical states, and
the stored ttl column still reads 42. -/
theorem c9_set_update_ignores_ttl_argument_witness :
    selectByKey wStateUpd.table (calcHash id "k") ≠ [] ∧
    (set wStateUpd id "/c" "k" (9:Nat) (some 5) 10).2 =
      (set wStateUpd id "/c" "k" (9:Nat) (some 9999) 10).2 ∧
    (set wStateUpd id "/c" "k" (9:Nat) (some 5) 10).2.table.map DiskCacheInfo.ttl =
      [42] := by
  have h := c9_set_update_ignores_ttl_argument wStateUpd id "/c" "k" 9
    (some 5) (some 9999) 10 (by decide)
  exact ⟨by decide, h.1, by rw [h.2]; rfl⟩

lemma length_filter_not_add_length_filter (p : DiskCacheInfo → Prop)
    [DecidablePred p] (l : List DiskCacheInfo) :
    (l.filter fun a => decide (¬ p a)).length +
      (l.filter fun a => decide (p a)).length = l.length := by
  induction l with
  | nil => rfl
  | cons a t ih =>
    simp only [List.filter_cons]
    by_cases h : p a
    · have h1 : ¬ (decide (¬ p a) = true) := by simp [h]
      have h2 : decide (p a) = true := by simp [h]
      rw [if_neg h1, if_pos h2]
      simp only [List.length_cons]
      omega
    · have h1 : decide (¬ p a) = true := by simp [h]
      have h2 : ¬ (decide (p a) = true) := by simp [h]
      rw [if_pos h1, if_neg h2]
      simp only [List.length_cons]
      omega

/-- Claim C5: `prune()` at a single timestamp `now` returns exactly the
number of expired records (`updated_at + ttl < now`), removes exactly
those records from the table (so N − M remain), deletes the payload files
of the expired records, leaves the files of the surviving records alone
(their paths are pairwise distinct in any reachable cache state, keys
being primary), and returns 0 without error when nothing is expired. -/
theorem c5_prune_removes_exactly_expired {α : Type} (s : CacheState α) (now : Int) :
    (prune s now).1 = s.table.countP (fun r => decide (r.updated_at + r.ttl < now)) ∧
    (prune s now).2.table.length + (prune s now).1 = s.table.length ∧
    (∀ x, x ∈ (prune s now).2.table → ¬ x.updated_at + x.ttl < now) ∧
    (∀ r, r ∈ s.table → r.updated_at + r.ttl < now →
       (prune s now).2.fs r.path = none) ∧
    ((s.table.map DiskCacheInfo.path).Nodup →
       ∀ r, r ∈ s.table → ¬ r.updated_at + r.ttl < now →
         r ∈ (prune s now).2.table ∧ (prune s now).2.fs r.path = s.fs r.path) ∧
    (selectExpired s.table now = [] → (prune s now).1 = 0) := by
  refine ⟨?_, ?_, ?_, ?_, ?_, ?_⟩
  · show (selectExpired s.table now).length = _
    rw [selectExpired, List.countP_eq_length_filter]
  · show (s.table.filter fun r => decide (¬ r.updated_at + r.ttl < now)).length +
      (selectExpired s.table now).length = s.table.length
    rw [selectExpired]
    exact length_filter_not_add_length_filter _ s.table
  · intro x hx
    have hx2 : x ∈ s.table.filter (fun r => decide (¬ r.updated_at + r.ttl < now)) := hx
    have := List.of_mem_filter hx2
    simpa using this
  · intro r hr hexp
    have hmem : r ∈ selectExpired s.table now :=
      List.mem_filter.mpr ⟨hr, by simpa using hexp⟩
    have hany : (selectExpired s.table now).any (fun x => decide (x.path = r.path)) = true :=
      List.any_eq_true.mpr ⟨r, hmem, by simp⟩
    show (if (selectExpired s.table now).any (fun x => decide (x.path = r.path))
          then none else s.fs r.path) = none
    rw [if_pos hany]
  · intro hnodup r hr hnot
    constructor
    · exact List.mem_filter.mpr ⟨hr, by simpa using hnot⟩
    · have hany : (selectExpired s.table now).any (fun x => decide (x.path = r.path)) = false := by
        rw [List.any_eq_false]
        intro e hemem
        have he := List.mem_filter.mp hemem
        have hexp : e.updated_at + e.ttl < now := by simpa using he.2
        intro hpe
        have hpe2 : e.path = r.path := by simpa using hpe
        have heq : e = r := List.inj_on_of_nodup_map hnodup he.1 hr hpe2
        rw [heq] at hexp
        exact hnot hexp
      show (if (selectExpired s.table now).any (fun x => decide (x.path = r.path))
            then none else s.fs r.path) = s.fs r.path
      rw [if_neg (by simp [hany])]
  · intro h
    show (selectExpired s.table now).length = 0
    rw [h]
    rfl

def rExpW : DiskCacheInfo :=
  { key := "a", path := "/c/a.pkl", created_at := 0, updated_at := 0, ttl := 10 }

def rLiveW : DiskCacheInfo :=
  { key := "b", path := "/c/b.pkl", created_at := 0, updated_at := 50, ttl := 100 }

def wStatePrune : CacheState Nat :=
  { table := [rExpW, rLiveW],
    fs := fun p => if p = "/c/a.pkl" then some (FileObj.df 1)
                   else if p = "/c/b.pkl" then some (FileObj.df 2) else none }

/-- Witness for C5: of two records, only `"a"` is expired at time 100;
`prune` returns 1, deletes `"a"`'s file, and keeps `"b"`'s file intact. -/
theorem c5_prune_removes_exactly_expired_witness :
    (wStatePrune.table.map DiskCacheInfo.path).Nodup ∧
    (prune wStatePrune 100).1 = 1 ∧
    (prune wStatePrune 100).2.fs "/c/a.pkl" = none ∧
    (prune wStatePrune 100).2.fs "/c/b.pkl" = some (FileObj.df 2) := by
  have h := c5_prune_removes_exactly_expired wStatePrune 100
  refine ⟨by decide, ?_, ?_, ?_⟩
  · rw [h.1]; decide
  · exact h.2.2.2.1 rExpW (by decide) (by decide)
  · exact (h.2.2.2.2.1 (by decide) rLiveW (by decide) (by decide)).2.trans (by decide)

/-- Counterexample to claim C3 as stated: in a state where a metadata
record for `digest("k")` exists but its payload file is absent, `delete`
returns `None` even though a record existed — the source only assigns
`deleted_path` inside the `if os.path.isfile(record.path)` branch. -/
theorem c3_delete_counterexample :
    selectByKey wStateNoFile.table (calcHash id "k") = [wRec] ∧
    (delete wStateNoFile id "k").1 = none :=
  ⟨by decide, by decide⟩

/-- Claim C3 as amended: `delete(k)` removes the payload file and the
metadata record; it returns the payload path when the matching record's
payload file existed on disk, and `None` otherwise (in particular `None`
when no record exists, without raising); called twice in a row on a key
whose record and file exist, the first call returns the path and the
second returns `None`. -/
theorem c3_delete_returns_path_iff_file_existed {α : Type} (s : CacheState α)
    (H : String → String) (key : String) :
    (∀ r, selectByKey s.table (calcHash H key) = [r] →
       (delete s H key).1 = (if (s.fs r.path).isSome then some r.path else none) ∧
       (delete s H key).2.fs r.path = none ∧
       (∀ p, p ≠ r.path → (delete s H key).2.fs p = s.fs p) ∧
       selectByKey (delete s H key).2.table (calcHash H key) = [] ∧
       (delete (delete s H key).2 H key).1 = none) ∧
    (selectByKey s.table (calcHash H key) = [] →
       (delete s H key).1 = none ∧ (delete s H key).2.table = s.table) := by
  constructor
  · intro r hsel
    have hres : (selectByKey s.table (calcHash H key)).foldl deleteStep
        ((none : Option String), s.fs) = deleteStep ((none : Option String), s.fs) r := by
      rw [hsel, List.foldl_cons, List.foldl_nil]
    have hshow1 : (delete s H key).1 = (deleteStep ((none : Option String), s.fs) r).1 := by
      show ((selectByKey s.table (calcHash H key)).foldl deleteStep
          ((none : Option String), s.fs)).1 = _
      rw [hres]
    have hshow2 : (delete s H key).2.fs = (deleteStep ((none : Option String), s.fs) r).2 := by
      show ((selectByKey s.table (calcHash H key)).foldl deleteStep
          ((none : Option String), s.fs)).2 = _
      rw [hres]
    cases hf : s.fs r.path with
    | some v =>
      have hsome : ((((none : Option String), s.fs)).2 r.path).isSome = true := by
        simp [hf]
      have hstep : deleteStep ((none : Option String), s.fs) r =
          (some r.path, fun p => if p = r.path then none else s.fs p) := by
        simp only [deleteStep]
        rw [if_pos hsome]
      refine ⟨?_, ?_, ?_, delete_removes_key s H key,
        delete_fst_of_no_record _ H key (delete_removes_key s H key)⟩
      · rw [hshow1, hstep]
        simp
      · rw [hshow2, hstep]
        simp
      · intro p hp
        rw [hshow2, hstep]
        simp [hp]
    | none =>
      have hstep : deleteStep ((none : Option String), s.fs) r =
          ((none : Option String), s.fs) := by
        simp only [deleteStep]
        rw [if_neg (by simp [hf])]
      refine ⟨?_, ?_, ?_, delete_removes_key s H key,
        delete_fst_of_no_record _ H key (delete_removes_key s H key)⟩
      · rw [hshow1, hstep]
        simp
      · rw [hshow2, hstep]
        exact hf
      · intro p hp
        rw [hshow2, hstep]
  · intro hsel
    refine ⟨delete_fst_of_no_record s H key hsel, ?_⟩
    show s.table.filter (fun r => decide (¬ r.key = calcHash H key)) = s.table
    rw [List.filter_eq_self]
    intro a ha
    rw [selectByKey, List.filter_eq_nil_iff] at hsel
    have := hsel a ha
    simpa using this

def wStateDel : CacheState Nat :=
  { table := [wRec],
    fs := fun p => if p = "/c/k.pkl" then some (FileObj.df 9) else none }

/-- Witness for the amended C3: with the record for `"k"` present and its
payload file on disk, the first `delete` returns the path and a second
`delete` returns `None`. -/
theorem c3_delete_returns_path_iff_file_existed_witness :
    (delete wStateDel id "k").1 = some "/c/k.pkl" ∧
    (delete (delete wStateDel id "k").2 id "k").1 = none := by
  have h := (c3_delete_returns_path_iff_file_existed wStateDel id "k").1 wRec (by decide)
  exact ⟨h.1.trans (by decide), h.2.2.2.2⟩

end DfDiskCache
